import Mathlib

/-!
A shallow embedding of the GPT-2 forward-inference engine from
src/gpt2/gpt2_optimized.c, together with proofs of the specification
claims about it.

Modelling conventions:
* C float arithmetic is embedded as exact rational arithmetic (ℚ).  The
  SIMD lane accumulation (4 floats at a time, lanes summed at the end)
  reassociates the same sum, which is the identity over ℚ, so dot
  products are written as a single indexed sum over the loop bound.
* The C library function sqrtf is transcendental, hence not a rational
  function; it is abstracted as an explicit parameter sqrtq : ℚ → ℚ that
  is threaded to the two call sites (scaled_dot_product_attention and
  norm), exactly where the C code calls sqrt.
* C matrices are jagged arrays of row pointers (float **); they are
  embedded as List (List ℚ).  A read x[i][j] is embedded as
  (x.getD i []).getD j 0, total where the C read would be out of bounds;
  bounds questions are stated separately through explicit in-bounds
  predicates over the row lengths the code actually allocates.
* The OpenMP tiling in scaled_dot_product_attention visits every cell
  (i, j) with i < seqLength, j < seqLength exactly once and each cell is
  written exactly once, so the tiled loop nest is embedded as the direct
  row-major construction of the matrix.
* Heap behaviour (which buffers a call writes to) is modelled for the
  frame claims by an explicit heap of rows: see Heap, allocRows,
  freeRows and blockH below.
-/

namespace GPT2

/-- EPSILON from the C header: 1e-5. -/
def EPSILON : ℚ := 1 / 100000

/-- EMBEDDING_SIZE: GPT-2 base model embedding size. -/
def EMBEDDING_SIZE : ℕ := 768

/-- NUM_BLOCKS: number of transformer blocks. -/
def NUM_BLOCKS : ℕ := 12

/-- NUM_HEADS: number of attention heads. -/
def NUM_HEADS : ℕ := 12

/-- HEAD_DIM = EMBEDDING_SIZE / NUM_HEADS. -/
def HEAD_DIM : ℕ := EMBEDDING_SIZE / NUM_HEADS

/-- VOCAB_SIZE: GPT-2 vocabulary size. -/
def VOCAB_SIZE : ℕ := 50257

/-- MAX_POSITION_EMBEDDINGS: maximum sequence length. -/
def MAX_POSITION_EMBEDDINGS : ℕ := 1024

/-- A row of floats (float *). -/
abbrev Vec := List ℚ

/-- A jagged matrix (float **): a list of row vectors. -/
abbrev Mat := List Vec

/-- The LinearLayer struct: weights[fcOutputSize][fcInputSize],
biases[fcOutputSize], and the two stored dimensions. -/
structure LinearLayer where
  weights : Mat
  biases : Vec
  fcInputSize : ℕ
  fcOutputSize : ℕ
deriving Inhabited, Repr

/-- The BlockWeights struct: the five linear layers of one block. -/
structure BlockWeights where
  q_mlp : LinearLayer
  k_mlp : LinearLayer
  v_mlp : LinearLayer
  first_block_MLP : LinearLayer
  second_block_MLP : LinearLayer
deriving Inhabited, Repr

/-- The GPT2Weights struct: positional embeddings, token embeddings,
block weights and the output projection. -/
structure GPT2Weights where
  wpe : Mat
  wte : Mat
  blocks : List BlockWeights
  logits_mlp : LinearLayer
deriving Inhabited, Repr

/-- The depth-n dot product loop shared by linear and
scaled_dot_product_attention: the C loops run j from 0 to n in SIMD
chunks of 4 and sum the four lanes at the end, which over exact
arithmetic is the plain sum of x[j] * w[j] for j < n. -/
def dotN (x w : Vec) (n : ℕ) : ℚ :=
  ∑ j ∈ Finset.range n, x.getD j 0 * w.getD j 0

/-- linear (lines 76-99): output[i] = (SIMD dot of weights[i] and
fcInput over fcInputSize entries) + biases[i], for i < fcOutputSize. -/
def linear (fcInput : Vec) (weights : Mat) (biases : Vec)
    (fcInputSize fcOutputSize : ℕ) : Vec :=
  (List.range fcOutputSize).map fun i =>
    dotN fcInput (weights.getD i []) fcInputSize + biases.getD i 0

/-- scaled_dot_product_attention (lines 102-151): allocates a
seqLength x seqLength output, sets scale_factor = 1 / sqrt(depth), and
for every cell (i, j) with i, j < seqLength (visited once by the tiled
loop nest) stores dot(Q[i], K[j]) over the depth axis times
scale_factor.  V is a parameter of the C function but is never read. -/
def scaled_dot_product_attention (sqrtq : ℚ → ℚ) (Q K V : Mat)
    (seqLength depth : ℕ) : Mat :=
  let scale_factor : ℚ := 1 / sqrtq (depth : ℚ)
  (List.range seqLength).map fun i =>
    (List.range seqLength).map fun j =>
      dotN (Q.getD i []) (K.getD j []) depth * scale_factor

/-- matrix_add (lines 154-179): result[i][j] = x[i][j] + y[i][j] for
i < numRow, j < numCol (the SIMD main loop and the scalar tail cover
exactly the indices j < numCol). -/
def matrix_add (x y : Mat) (numRow numCol : ℕ) : Mat :=
  (List.range numRow).map fun i =>
    (List.range numCol).map fun j =>
      (x.getD i []).getD j 0 + (y.getD i []).getD j 0

/-- norm (lines 182-210): per row i, mean = (sum of the row) / features,
variance = (sum of squared deviations) / features, and entry j is
(x[i][j] - mean) / sqrt(variance + EPSILON). -/
def norm (sqrtq : ℚ → ℚ) (x : Mat) (seqLength features : ℕ) : Mat :=
  (List.range seqLength).map fun i =>
    let row := x.getD i []
    let mean : ℚ := (∑ j ∈ Finset.range features, row.getD j 0) / (features : ℚ)
    let variance : ℚ :=
      (∑ j ∈ Finset.range features, (row.getD j 0 - mean) * (row.getD j 0 - mean)) / (features : ℚ)
    (List.range features).map fun j =>
      (row.getD j 0 - mean) / sqrtq (variance + EPSILON)

/-- gelu (lines 213-227): the loop steps i by 4 and stores
x[i..i+3] * 0.5; when size is a multiple of 4 the written indices are
exactly i < size, each holding 0.5 * x[i].  The tanh term of canonical
GELU is absent from the source. -/
def gelu (x : Vec) (size : ℕ) : Vec :=
  (List.range size).map fun i => x.getD i 0 * (1 / 2 : ℚ)

/-- positions_for (lines 230-238): positions[i] = past_length + i.  The
tokens argument is taken but never read, as in the C source. -/
def positions_for (tokens : List ℕ) (seqLength past_length : ℕ) : List ℕ :=
  (List.range seqLength).map fun i => past_length + i

/-- Rows i < seqLength of a matrix X pushed through one linear layer:
the Q/K/V projection loop of block (lines 257-262) and, reused, the
row-wise application inside the feed-forward loop. -/
def projectRows (X : Mat) (seqLength : ℕ) (L : LinearLayer) : Mat :=
  (List.range seqLength).map fun i =>
    linear (X.getD i []) L.weights L.biases L.fcInputSize L.fcOutputSize

/-- The per-head slice built by the memcpy loop of block
(lines 264-284): row i of head h holds M[i][h*HEAD_DIM + k] for
k < HEAD_DIM. -/
def headSlice (M : Mat) (seqLength h : ℕ) : Mat :=
  (List.range seqLength).map fun i =>
    (List.range HEAD_DIM).map fun k =>
      (M.getD i []).getD (h * HEAD_DIM + k) 0

/-- head_outputs[h] of block (lines 286-295): scaled dot-product
attention applied to the head-h slices of the Q, K, V projections of
the layer-normalized input. -/
def blockHeadOutputs (sqrtq : ℚ → ℚ) (x : Mat) (seqLength embeddingSize : ℕ)
    (w : BlockWeights) (h : ℕ) : Mat :=
  let normalized_x := norm sqrtq x seqLength embeddingSize
  scaled_dot_product_attention sqrtq
    (headSlice (projectRows normalized_x seqLength w.q_mlp) seqLength h)
    (headSlice (projectRows normalized_x seqLength w.k_mlp) seqLength h)
    (headSlice (projectRows normalized_x seqLength w.v_mlp) seqLength h)
    seqLength HEAD_DIM

/-- The concatenation loop of block (lines 297-306): row i of the
recombied attention output a receives, at offset h*HEAD_DIM, the first
HEAD_DIM floats of head_outputs[h][i] (the memcpy copies HEAD_DIM
consecutive floats per head).  Column c therefore reads entry
c % HEAD_DIM of head c / HEAD_DIM, and the written columns are exactly
c < NUM_HEADS * HEAD_DIM. -/
def concatHeads (headOut : ℕ → Mat) (seqLength : ℕ) : Mat :=
  (List.range seqLength).map fun i =>
    (List.range (NUM_HEADS * HEAD_DIM)).map fun c =>
      ((headOut (c / HEAD_DIM)).getD i []).getD (c % HEAD_DIM) 0

/-- The two-layer MLP applied to one position inside block
(lines 317-333): first_block_MLP, then gelu over its fcOutputSize
outputs, then second_block_MLP. -/
def mlpPosition (v : Vec) (w : BlockWeights) : Vec :=
  let first_mlp_out :=
    linear v w.first_block_MLP.weights w.first_block_MLP.biases
      w.first_block_MLP.fcInputSize w.first_block_MLP.fcOutputSize
  let gelu_out := gelu first_mlp_out w.first_block_MLP.fcOutputSize
  linear gelu_out w.second_block_MLP.weights w.second_block_MLP.biases
    w.second_block_MLP.fcInputSize w.second_block_MLP.fcOutputSize

/-- block (lines 241-378): layer norm, Q/K/V projection, per-head
attention and recombination (a), residual add (x_added), second layer
norm, per-position feed-forward (m), final residual add. -/
def block (sqrtq : ℚ → ℚ) (x : Mat) (seqLength embeddingSize : ℕ)
    (w : BlockWeights) : Mat :=
  let a := concatHeads (blockHeadOutputs sqrtq x seqLength embeddingSize w) seqLength
  let x_added := matrix_add x a seqLength embeddingSize
  let normalized_x_added := norm sqrtq x_added seqLength embeddingSize
  let m := (List.range seqLength).map fun i =>
    mlpPosition (normalized_x_added.getD i []) w
  matrix_add x_added m seqLength embeddingSize

/-- The embedding initialization of model (lines 383-397):
h[i][j] = wte[tokens[i]][j] + wpe[positions[i]][j] with positions from
positions_for at past_length = 0. -/
def initialHidden (tokens : List ℕ) (seqLength : ℕ) (weights : GPT2Weights) : Mat :=
  let positions := positions_for tokens seqLength 0
  (List.range seqLength).map fun i =>
    (List.range EMBEDDING_SIZE).map fun j =>
      (weights.wte.getD (tokens.getD i 0) []).getD j 0 +
        (weights.wpe.getD (positions.getD i 0) []).getD j 0

/-- model (lines 381-427): build the initial hidden state, pass it
through the NUM_BLOCKS blocks in order, then apply logits_mlp to the
hidden row of the last position. -/
def model (sqrtq : ℚ → ℚ) (tokens : List ℕ) (seqLength : ℕ)
    (weights : GPT2Weights) : Vec :=
  let h0 := initialHidden tokens seqLength weights
  let hN := (List.range NUM_BLOCKS).foldl
    (fun hcur b => block sqrtq hcur seqLength EMBEDDING_SIZE (weights.blocks.getD b default))
    h0
  linear (hN.getD (seqLength - 1) []) weights.logits_mlp.weights
    weights.logits_mlp.biases weights.logits_mlp.fcInputSize
    weights.logits_mlp.fcOutputSize

/-- In-bounds predicate for the head-recombination reads of block
(lines 297-306): the memcpy for head h and row i reads entries
k < HEAD_DIM of head_outputs[h][i]; the read is within the allocated
row exactly when k is below that row's length. -/
def recombineReadsInBounds (headOut : ℕ → Mat) (seqLength : ℕ) : Prop :=
  ∀ h < NUM_HEADS, ∀ i < seqLength, ∀ k < HEAD_DIM,
    k < ((headOut h).getD i []).length

/-!
Heap model for the frame claim.  A heap is a list of allocated rows;
a pointer is an index into that list; malloc appends fresh rows at the
end (so fresh pointers are at or above the old heap length) and free
replaces the pointed-to row by none.  This mirrors the C code, where
every store in block targets a buffer returned by malloc during the
call and every free in block targets such a buffer.
-/

/-- A heap of float rows: some row if allocated and live, none if
freed. -/
abbrev Heap := List (Option Vec)

/-- Dereference a row pointer (a freed or dangling pointer reads as the
empty row; the frame theorems only ever rely on live pointers). -/
def readRow (st : Heap) (p : ℕ) : Vec :=
  (st.getD p none).getD []

/-- Dereference a list of row pointers as a matrix. -/
def readMat (st : Heap) (ps : List ℕ) : Mat :=
  ps.map (readRow st)

/-- malloc a batch of rows: append them to the heap and return the
fresh pointers (heap length onward). -/
def allocRows (st : Heap) (rows : Mat) : Heap × List ℕ :=
  (st ++ rows.map Option.some,
   (List.range rows.length).map fun k => st.length + k)

/-- free a list of row pointers. -/
def freeRows (st : Heap) (ps : List ℕ) : Heap :=
  ps.foldl (fun s p => s.set p none) st

/-- Heap-level transcription of block (lines 241-378): the input rows
are read through the pointers xp; every intermediate of the pipeline is
written to freshly malloc-ed rows, in the allocation order of the
source (normalized_x; Q; K; V; Q_heads, K_heads, V_heads; head_outputs;
a; x_added; normalized_x_added; m with its per-position first_mlp_out
and gelu_out temporaries folded into the row values; output), and the
frees at lines 338-375 release every intermediate except a and the
returned output.  Row contents are computed by the pure stage functions
above, which is what the C stages store into those fresh buffers. -/
def blockH (sqrtq : ℚ → ℚ) (st : Heap) (xp : List ℕ)
    (seqLength embeddingSize : ℕ) (w : BlockWeights) : Heap × List ℕ :=
  let x := readMat st xp
  let normalized_x := norm sqrtq x seqLength embeddingSize
  let Q := projectRows normalized_x seqLength w.q_mlp
  let K := projectRows normalized_x seqLength w.k_mlp
  let V := projectRows normalized_x seqLength w.v_mlp
  let headRows : Mat :=
    (List.range NUM_HEADS).flatMap fun h =>
      headSlice Q seqLength h ++ headSlice K seqLength h ++ headSlice V seqLength h
  let headOutRows : Mat :=
    (List.range NUM_HEADS).flatMap fun h =>
      blockHeadOutputs sqrtq x seqLength embeddingSize w h
  let a := concatHeads (blockHeadOutputs sqrtq x seqLength embeddingSize w) seqLength
  let x_added := matrix_add x a seqLength embeddingSize
  let normalized_x_added := norm sqrtq x_added seqLength embeddingSize
  let m := (List.range seqLength).map fun i =>
    mlpPosition (normalized_x_added.getD i []) w
  let output := matrix_add x_added m seqLength embeddingSize
  let s1 := allocRows st normalized_x
  let s2 := allocRows s1.1 Q
  let s3 := allocRows s2.1 K
  let s4 := allocRows s3.1 V
  let s5 := allocRows s4.1 headRows
  let s6 := allocRows s5.1 headOutRows
  let s7 := allocRows s6.1 a
  let s8 := allocRows s7.1 x_added
  let s9 := allocRows s8.1 normalized_x_added
  let s10 := allocRows s9.1 m
  let s11 := allocRows s10.1 output
  let freed := freeRows s11.1
    (s1.2 ++ s2.2 ++ s3.2 ++ s4.2 ++ s5.2 ++ s6.2 ++ s8.2 ++ s9.2 ++ s10.2)
  (freed, s11.2)

/- Helper lemmas about rows built with List.range. -/

theorem getD_map_range {α : Type} (f : ℕ → α) (n i : ℕ) (d : α) (h : i < n) :
    ((List.range n).map f).getD i d = f i := by
  rw [List.getD_eq_getElem?_getD, List.getElem?_map, List.getElem?_range h]
  rfl

theorem length_map_range {α : Type} (f : ℕ → α) (n : ℕ) :
    ((List.range n).map f).length = n := by
  simp

theorem matrix_add_entry (x y : Mat) (numRow numCol i j : ℕ)
    (hi : i < numRow) (hj : j < numCol) :
    ((matrix_add x y numRow numCol).getD i []).getD j 0 =
      (x.getD i []).getD j 0 + (y.getD i []).getD j 0 := by
  rw [matrix_add, getD_map_range _ _ _ _ hi, getD_map_range _ _ _ _ hj]

theorem dotN_comm (x w : Vec) (n : ℕ) : dotN x w n = dotN w x n := by
  unfold dotN
  exact Finset.sum_congr rfl fun j _ => mul_comm _ _

/-- Claim C6: for every input vector of length n with n a positive
multiple of 4 (the SIMD lane width), every (m, n) weight matrix and
length-m bias vector with m positive, linear returns a vector of length
m whose entry i (for i < m) is biases[i] + dot(weights[i], input). -/
theorem linear_spec (fcInput : Vec) (weights : Mat) (biases : Vec)
    (n m i : ℕ) (hn4 : n % 4 = 0) (hn : 0 < n) (hm : 0 < m) (hi : i < m)
    (hin : fcInput.length = n) (hw : weights.length = m)
    (hwr : ∀ r ∈ weights, r.length = n) (hb : biases.length = m) :
    (linear fcInput weights biases n m).length = m ∧
    (linear fcInput weights biases n m).getD i 0 =
      biases.getD i 0 + dotN (weights.getD i []) fcInput n := by
  refine ⟨by simp [linear], ?_⟩
  rw [linear, getD_map_range _ _ _ _ hi, dotN_comm, add_comm]

theorem linear_spec_witness :
    (linear [1, 2, 3, 4] [[1, 0, 0, 0]] [5] 4 1).length = 1 ∧
    (linear [1, 2, 3, 4] [[1, 0, 0, 0]] [5] 4 1).getD 0 0 =
      ([5] : Vec).getD 0 0 + dotN (([[1, 0, 0, 0]] : Mat).getD 0 []) [1, 2, 3, 4] 4 :=
  linear_spec [1, 2, 3, 4] [[1, 0, 0, 0]] [5] 4 1 0 (by decide) (by decide)
    (by decide) (by decide) (by decide) (by decide) (by decide) (by decide)

/-- Claim C4: for every input vector x of length size with size a
multiple of 4, gelu returns a vector of length size whose entry i is
0.5 * x[i]; only the 0.5 scaling of canonical GELU is applied (the tanh
term is absent from the source). -/
theorem gelu_spec (x : Vec) (size i : ℕ) (h4 : size % 4 = 0)
    (hx : x.length = size) (hi : i < size) :
    (gelu x size).length = size ∧
    (gelu x size).getD i 0 = (1 / 2 : ℚ) * x.getD i 0 := by
  refine ⟨by simp [gelu], ?_⟩
  rw [gelu, getD_map_range _ _ _ _ hi, mul_comm]

theorem gelu_spec_witness :
    (gelu [1, 2, 3, 4] 4).length = 4 ∧
    (gelu [1, 2, 3, 4] 4).getD 0 0 = (1 / 2 : ℚ) * ([1, 2, 3, 4] : Vec).getD 0 0 :=
  gelu_spec [1, 2, 3, 4] 4 0 (by decide) (by decide) (by decide)

/-- Claim C3: for per-head Q, K, V of shape seqLength x head_width with
head_width a multiple of 4, scaled_dot_product_attention returns a
seqLength x seqLength matrix with entry (i, j) equal to
(1 / sqrt(head_width)) * dot(Q[i], K[j]); no softmax is applied (the
entry is exactly the scaled dot product) and the result does not depend
on the V argument at all. -/
theorem sdpa_spec (sqrtq : ℚ → ℚ) (Q K V : Mat) (seqLength depth i j : ℕ)
    (hd4 : depth % 4 = 0)
    (hQ : Q.length = seqLength) (hK : K.length = seqLength) (hV : V.length = seqLength)
    (hQr : ∀ r ∈ Q, r.length = depth) (hKr : ∀ r ∈ K, r.length = depth)
    (hVr : ∀ r ∈ V, r.length = depth)
    (hi : i < seqLength) (hj : j < seqLength) :
    (scaled_dot_product_attention sqrtq Q K V seqLength depth).length = seqLength ∧
    ((scaled_dot_product_attention sqrtq Q K V seqLength depth).getD i []).length = seqLength ∧
    ((scaled_dot_product_attention sqrtq Q K V seqLength depth).getD i []).getD j 0 =
      (1 / sqrtq (depth : ℚ)) * dotN (Q.getD i []) (K.getD j []) depth ∧
    ∀ V2 : Mat, scaled_dot_product_attention sqrtq Q K V2 seqLength depth =
      scaled_dot_product_attention sqrtq Q K V seqLength depth := by
  refine ⟨by simp [scaled_dot_product_attention], ?_, ?_, fun V2 => rfl⟩
  · simp only [scaled_dot_product_attention]
    rw [getD_map_range _ _ _ _ hi]
    simp
  · simp only [scaled_dot_product_attention]
    rw [getD_map_range _ _ _ _ hi, getD_map_range _ _ _ _ hj, mul_comm]

theorem sdpa_spec_witness :
    (scaled_dot_product_attention (fun q => q) [[1, 0, 0, 0]] [[1, 1, 0, 0]] [[0, 0, 0, 0]] 1 4).length = 1 ∧
    ((scaled_dot_product_attention (fun q => q) [[1, 0, 0, 0]] [[1, 1, 0, 0]] [[0, 0, 0, 0]] 1 4).getD 0 []).length = 1 ∧
    ((scaled_dot_product_attention (fun q => q) [[1, 0, 0, 0]] [[1, 1, 0, 0]] [[0, 0, 0, 0]] 1 4).getD 0 []).getD 0 0 =
      (1 / (fun q => q) ((4 : ℕ) : ℚ)) *
        dotN (([[1, 0, 0, 0]] : Mat).getD 0 []) (([[1, 1, 0, 0]] : Mat).getD 0 []) 4 ∧
    ∀ V2 : Mat, scaled_dot_product_attention (fun q => q) [[1, 0, 0, 0]] [[1, 1, 0, 0]] V2 1 4 =
      scaled_dot_product_attention (fun q => q) [[1, 0, 0, 0]] [[1, 1, 0, 0]] [[0, 0, 0, 0]] 1 4 :=
  sdpa_spec (fun q => q) [[1, 0, 0, 0]] [[1, 1, 0, 0]] [[0, 0, 0, 0]] 1 4 0 0
    (by decide) (by decide) (by decide) (by decide) (by decide) (by decide)
    (by decide) (by decide) (by decide)

/-- Claim C7: norm processes each row i independently, computing the
row mean and the biased variance (both divided by features) over the
feature axis, and entry j of the normalized row is
(x[i][j] - mean) / sqrt(variance + 1e-5); no learned scale or shift is
applied (the entry is exactly that quotient). -/
theorem norm_spec (sqrtq : ℚ → ℚ) (x : Mat) (seqLength features i j : ℕ)
    (hi : i < seqLength) (hj : j < features) :
    (norm sqrtq x seqLength features).length = seqLength ∧
    ((norm sqrtq x seqLength features).getD i []).length = features ∧
    ((norm sqrtq x seqLength features).getD i []).getD j 0 =
      (let row := x.getD i []
       let mean : ℚ := (∑ t ∈ Finset.range features, row.getD t 0) / (features : ℚ)
       let variance : ℚ :=
         (∑ t ∈ Finset.range features, (row.getD t 0 - mean) * (row.getD t 0 - mean)) / (features : ℚ)
       (row.getD j 0 - mean) / sqrtq (variance + 1 / 100000)) := by
  refine ⟨by simp [norm], ?_, ?_⟩
  · simp only [norm]
    rw [getD_map_range _ _ _ _ hi]
    simp
  · simp only [norm]
    rw [getD_map_range _ _ _ _ hi, getD_map_range _ _ _ _ hj]
    rfl

/-- Claim C2: the head-split/recombine portion of block splits the
embedding-width input into NUM_HEADS contiguous slices of
HEAD_DIM = EMBEDDING_SIZE / NUM_HEADS columns, runs scaled dot-product
attention independently per head on the slices of the Q, K, V
projections, and concatenates the per-head outputs with head order
preserved: the recombined output has seqLength rows of EMBEDDING_SIZE
columns, and column h * HEAD_DIM + k of row i comes from entry k of
row i of head h's output. -/
theorem mha_split_recombine_spec (sqrtq : ℚ → ℚ) (x : Mat)
    (seqLength embeddingSize : ℕ) (w : BlockWeights) (i h k : ℕ)
    (hi : i < seqLength) (hh : h < NUM_HEADS) (hk : k < HEAD_DIM) :
    (concatHeads (blockHeadOutputs sqrtq x seqLength embeddingSize w) seqLength).length = seqLength ∧
    ((concatHeads (blockHeadOutputs sqrtq x seqLength embeddingSize w) seqLength).getD i []).length
      = EMBEDDING_SIZE ∧
    ((concatHeads (blockHeadOutputs sqrtq x seqLength embeddingSize w) seqLength).getD i []).getD
        (h * HEAD_DIM + k) 0 =
      ((blockHeadOutputs sqrtq x seqLength embeddingSize w h).getD i []).getD k 0 ∧
    blockHeadOutputs sqrtq x seqLength embeddingSize w h =
      scaled_dot_product_attention sqrtq
        (headSlice (projectRows (norm sqrtq x seqLength embeddingSize) seqLength w.q_mlp) seqLength h)
        (headSlice (projectRows (norm sqrtq x seqLength embeddingSize) seqLength w.k_mlp) seqLength h)
        (headSlice (projectRows (norm sqrtq x seqLength embeddingSize) seqLength w.v_mlp) seqLength h)
        seqLength HEAD_DIM := by
  have hHD : HEAD_DIM = 64 := rfl
  have hNH : NUM_HEADS = 12 := rfl
  refine ⟨by simp [concatHeads], ?_, ?_, rfl⟩
  · rw [concatHeads, getD_map_range _ _ _ _ hi, length_map_range]
    rw [hHD, hNH]
    rfl
  · rw [concatHeads, getD_map_range _ _ _ _ hi]
    have hlt : h * HEAD_DIM + k < NUM_HEADS * HEAD_DIM := by
      rw [hHD] at hk ⊢
      rw [hNH] at hh ⊢
      omega
    rw [getD_map_range _ _ _ _ hlt]
    have e1 : (h * HEAD_DIM + k) / HEAD_DIM = h := by
      rw [hHD] at hk ⊢
      omega
    have e2 : (h * HEAD_DIM + k) % HEAD_DIM = k := by
      rw [hHD] at hk ⊢
      omega
    rw [e1, e2]

theorem mha_split_recombine_spec_witness :
    (concatHeads (blockHeadOutputs (fun q => q) [[1]] 1 EMBEDDING_SIZE default) 1).length = 1 ∧
    ((concatHeads (blockHeadOutputs (fun q => q) [[1]] 1 EMBEDDING_SIZE default) 1).getD 0 []).length
      = EMBEDDING_SIZE ∧
    ((concatHeads (blockHeadOutputs (fun q => q) [[1]] 1 EMBEDDING_SIZE default) 1).getD 0 []).getD
        (0 * HEAD_DIM + 0) 0 =
      ((blockHeadOutputs (fun q => q) [[1]] 1 EMBEDDING_SIZE default 0).getD 0 []).getD 0 0 ∧
    blockHeadOutputs (fun q => q) [[1]] 1 EMBEDDING_SIZE default 0 =
      scaled_dot_product_attention (fun q => q)
        (headSlice (projectRows (norm (fun q => q) [[1]] 1 EMBEDDING_SIZE) 1 (BlockWeights.q_mlp default)) 1 0)
        (headSlice (projectRows (norm (fun q => q) [[1]] 1 EMBEDDING_SIZE) 1 (BlockWeights.k_mlp default)) 1 0)
        (headSlice (projectRows (norm (fun q => q) [[1]] 1 EMBEDDING_SIZE) 1 (BlockWeights.v_mlp default)) 1 0)
        1 HEAD_DIM :=
  mha_split_recombine_spec (fun q => q) [[1]] 1 EMBEDDING_SIZE default 0 0 0
    (by decide) (by decide) (by decide)

/-- Claim C5: block equals the fixed pipeline: layer-normalize x,
project to Q, K, V, run multi-head attention to get a, residual add
x1 = x + a, layer-normalize x1, feed the normalized x1 per position
through Linear, gelu, Linear, and return x1 + feed_forward_result; the
residual adds are elementwise. -/
theorem block_pipeline_spec (sqrtq : ℚ → ℚ) (x : Mat)
    (seqLength embeddingSize : ℕ) (w : BlockWeights) (i j : ℕ)
    (hi : i < seqLength) (hj : j < embeddingSize) :
    (block sqrtq x seqLength embeddingSize w).length = seqLength ∧
    (let a := concatHeads (blockHeadOutputs sqrtq x seqLength embeddingSize w) seqLength
     let x1 := matrix_add x a seqLength embeddingSize
     let m := (List.range seqLength).map fun t =>
       mlpPosition ((norm sqrtq x1 seqLength embeddingSize).getD t []) w
     block sqrtq x seqLength embeddingSize w = matrix_add x1 m seqLength embeddingSize ∧
     (x1.getD i []).getD j 0 = (x.getD i []).getD j 0 + (a.getD i []).getD j 0 ∧
     ((block sqrtq x seqLength embeddingSize w).getD i []).getD j 0 =
       (x1.getD i []).getD j 0 + (m.getD i []).getD j 0 ∧
     m.getD i [] =
       linear
         (gelu
           (linear ((norm sqrtq x1 seqLength embeddingSize).getD i [])
             w.first_block_MLP.weights w.first_block_MLP.biases
             w.first_block_MLP.fcInputSize w.first_block_MLP.fcOutputSize)
           w.first_block_MLP.fcOutputSize)
         w.second_block_MLP.weights w.second_block_MLP.biases
         w.second_block_MLP.fcInputSize w.second_block_MLP.fcOutputSize) := by
  refine ⟨by simp [block, matrix_add], ?_⟩
  dsimp only
  refine ⟨rfl, matrix_add_entry _ _ _ _ _ _ hi hj, ?_, ?_⟩
  · exact matrix_add_entry _ _ _ _ _ _ hi hj
  · rw [getD_map_range _ _ _ _ hi]
    rfl

theorem block_pipeline_spec_witness :
    (block (fun q => q) [[1, 2]] 1 2 default).length = 1 ∧
    (let a := concatHeads (blockHeadOutputs (fun q => q) [[1, 2]] 1 2 default) 1
     let x1 := matrix_add [[1, 2]] a 1 2
     let m := (List.range 1).map fun t =>
       mlpPosition ((norm (fun q => q) x1 1 2).getD t []) default
     block (fun q => q) [[1, 2]] 1 2 default = matrix_add x1 m 1 2 ∧
     (x1.getD 0 []).getD 0 0 = (([[1, 2]] : Mat).getD 0 []).getD 0 0 + (a.getD 0 []).getD 0 0 ∧
     ((block (fun q => q) [[1, 2]] 1 2 default).getD 0 []).getD 0 0 =
       (x1.getD 0 []).getD 0 0 + (m.getD 0 []).getD 0 0 ∧
     m.getD 0 [] =
       linear
         (gelu
           (linear ((norm (fun q => q) x1 1 2).getD 0 [])
             (BlockWeights.first_block_MLP default).weights (BlockWeights.first_block_MLP default).biases
             (BlockWeights.first_block_MLP default).fcInputSize (BlockWeights.first_block_MLP default).fcOutputSize)
           (BlockWeights.first_block_MLP default).fcOutputSize)
         (BlockWeights.second_block_MLP default).weights (BlockWeights.second_block_MLP default).biases
         (BlockWeights.second_block_MLP default).fcInputSize (BlockWeights.second_block_MLP default).fcOutputSize) :=
  block_pipeline_spec (fun q => q) [[1, 2]] 1 2 default 0 0 (by decide) (by decide)

/-- Claim C1: for every token sequence of length L with 1 <= L <= 1024
and tokens in [0, 50257), model returns a vector of exactly
VOCAB_SIZE = 50257 logits; the initial hidden state has
h[i][j] = wte[tokens[i]][j] + wpe[i][j] (position = index, past_length
= 0), the hidden state is folded through the NUM_BLOCKS = 12 blocks in
order, and the logits are the output linear projection of the last
position's final hidden row. -/
theorem model_forward_spec (sqrtq : ℚ → ℚ) (tokens : List ℕ) (L : ℕ)
    (w : GPT2Weights) (i j : ℕ)
    (hL1 : 1 ≤ L) (hL2 : L ≤ MAX_POSITION_EMBEDDINGS)
    (htok : ∀ t ∈ tokens, t < VOCAB_SIZE) (hlen : tokens.length = L)
    (hout : w.logits_mlp.fcOutputSize = VOCAB_SIZE)
    (hi : i < L) (hj : j < EMBEDDING_SIZE) :
    (model sqrtq tokens L w).length = VOCAB_SIZE ∧
    model sqrtq tokens L w =
      linear (((List.range NUM_BLOCKS).foldl
          (fun hcur b => block sqrtq hcur L EMBEDDING_SIZE (w.blocks.getD b default))
          (initialHidden tokens L w)).getD (L - 1) [])
        w.logits_mlp.weights w.logits_mlp.biases w.logits_mlp.fcInputSize
        w.logits_mlp.fcOutputSize ∧
    ((initialHidden tokens L w).getD i []).getD j 0 =
      (w.wte.getD (tokens.getD i 0) []).getD j 0 + (w.wpe.getD i []).getD j 0 := by
  refine ⟨?_, rfl, ?_⟩
  · simp [model, linear, hout]
  · rw [initialHidden]
    rw [getD_map_range _ _ _ _ hi, getD_map_range _ _ _ _ hj]
    rw [positions_for, getD_map_range _ _ _ _ hi]
    norm_num

theorem model_forward_spec_witness :
    (model (fun q => q) [0] 1 ⟨[], [], [], ⟨[], [], EMBEDDING_SIZE, VOCAB_SIZE⟩⟩).length = VOCAB_SIZE ∧
    model (fun q => q) [0] 1 ⟨[], [], [], ⟨[], [], EMBEDDING_SIZE, VOCAB_SIZE⟩⟩ =
      linear (((List.range NUM_BLOCKS).foldl
          (fun hcur b => block (fun q => q) hcur 1 EMBEDDING_SIZE
            ((GPT2Weights.blocks ⟨[], [], [], ⟨[], [], EMBEDDING_SIZE, VOCAB_SIZE⟩⟩).getD b default))
          (initialHidden [0] 1 ⟨[], [], [], ⟨[], [], EMBEDDING_SIZE, VOCAB_SIZE⟩⟩)).getD (1 - 1) [])
        (GPT2Weights.logits_mlp ⟨[], [], [], ⟨[], [], EMBEDDING_SIZE, VOCAB_SIZE⟩⟩).weights
        (GPT2Weights.logits_mlp ⟨[], [], [], ⟨[], [], EMBEDDING_SIZE, VOCAB_SIZE⟩⟩).biases
        (GPT2Weights.logits_mlp ⟨[], [], [], ⟨[], [], EMBEDDING_SIZE, VOCAB_SIZE⟩⟩).fcInputSize
        (GPT2Weights.logits_mlp ⟨[], [], [], ⟨[], [], EMBEDDING_SIZE, VOCAB_SIZE⟩⟩).fcOutputSize ∧
    ((initialHidden [0] 1 ⟨[], [], [], ⟨[], [], EMBEDDING_SIZE, VOCAB_SIZE⟩⟩).getD 0 []).getD 0 0 =
      ((GPT2Weights.wte ⟨[], [], [], ⟨[], [], EMBEDDING_SIZE, VOCAB_SIZE⟩⟩).getD
          (([0] : List ℕ).getD 0 0) []).getD 0 0 +
        ((GPT2Weights.wpe ⟨[], [], [], ⟨[], [], EMBEDDING_SIZE, VOCAB_SIZE⟩⟩).getD 0 []).getD 0 0 :=
  model_forward_spec (fun q => q) [0] 1 ⟨[], [], [], ⟨[], [], EMBEDDING_SIZE, VOCAB_SIZE⟩⟩ 0 0
    (by decide) (by decide) (by decide) (by decide) (by decide) (by decide) (by decide)

theorem norm_spec_witness :
    (norm (fun q => q) [[1, 3]] 1 2).length = 1 ∧
    ((norm (fun q => q) [[1, 3]] 1 2).getD 0 []).length = 2 ∧
    ((norm (fun q => q) [[1, 3]] 1 2).getD 0 []).getD 0 0 =
      (let row := ([[1, 3]] : Mat).getD 0 []
       let mean : ℚ := (∑ t ∈ Finset.range 2, row.getD t 0) / (2 : ℚ)
       let variance : ℚ :=
         (∑ t ∈ Finset.range 2, (row.getD t 0 - mean) * (row.getD t 0 - mean)) / (2 : ℚ)
       (row.getD 0 0 - mean) / (fun q => q) (variance + 1 / 100000)) :=
  norm_spec (fun q => q) [[1, 3]] 1 2 0 0 (by decide) (by decide)

theorem blockHeadOutputs_row_length (sqrtq : ℚ → ℚ) (x : Mat)
    (seqLength embeddingSize : ℕ) (w : BlockWeights) (h i : ℕ) (hi : i < seqLength) :
    ((blockHeadOutputs sqrtq x seqLength embeddingSize w h).getD i []).length = seqLength := by
  rw [blockHeadOutputs]
  simp only [scaled_dot_product_attention]
  rw [getD_map_range _ _ _ _ hi]
  simp

theorem map_range_getD_take (l : Vec) (m : ℕ) (hm : m ≤ l.length) :
    (List.range m).map (fun k => l.getD k 0) = l.take m := by
  apply List.ext_getElem
  · simp [List.length_take]
    omega
  · intro t h1 h2
    simp only [List.getElem_map, List.getElem_range, List.getElem_take]
    rw [List.length_map, List.length_range] at h1
    exact List.getD_eq_getElem l 0 (by omega)

/-- Claim C10: in the head-recombination step exactly HEAD_DIM
consecutive floats are copied out of head_outputs[h][i], while
scaled_dot_product_attention allocates each such row with seqLength
entries; hence (for nonempty sequences) every recombination read is
within its row exactly when seqLength is at least HEAD_DIM = 64, and
when seqLength exceeds HEAD_DIM each head contributes only the first
HEAD_DIM entries of its seqLength-wide score row. -/
theorem recombine_bounds_iff (sqrtq : ℚ → ℚ) (x : Mat)
    (seqLength embeddingSize : ℕ) (w : BlockWeights) (i h : ℕ)
    (hL : 1 ≤ seqLength) (hi : i < seqLength) (hh : h < NUM_HEADS) :
    (recombineReadsInBounds (blockHeadOutputs sqrtq x seqLength embeddingSize w) seqLength ↔
      HEAD_DIM ≤ seqLength) ∧
    ((blockHeadOutputs sqrtq x seqLength embeddingSize w h).getD i []).length = seqLength ∧
    (HEAD_DIM < seqLength →
      (List.range HEAD_DIM).map
          (fun k => ((blockHeadOutputs sqrtq x seqLength embeddingSize w h).getD i []).getD k 0) =
        ((blockHeadOutputs sqrtq x seqLength embeddingSize w h).getD i []).take HEAD_DIM) := by
  have hrow : ∀ h2 i2, i2 < seqLength →
      ((blockHeadOutputs sqrtq x seqLength embeddingSize w h2).getD i2 []).length = seqLength :=
    fun h2 i2 hi2 => blockHeadOutputs_row_length sqrtq x seqLength embeddingSize w h2 i2 hi2
  refine ⟨⟨?_, ?_⟩, hrow h i hi, ?_⟩
  · intro hIB
    by_contra hcon
    have h0 := hIB 0 (by decide) 0 (by omega) seqLength (by omega)
    rw [hrow 0 0 (by omega)] at h0
    omega
  · intro h64 h2 hh2 i2 hi2 k hk
    rw [hrow h2 i2 hi2]
    omega
  · intro hlt
    exact map_range_getD_take _ _ (by rw [hrow h i hi]; omega)

theorem recombine_bounds_iff_witness :
    (recombineReadsInBounds (blockHeadOutputs (fun q => q) [[1]] 64 EMBEDDING_SIZE default) 64 ↔
      HEAD_DIM ≤ 64) ∧
    ((blockHeadOutputs (fun q => q) [[1]] 64 EMBEDDING_SIZE default 0).getD 0 []).length = 64 ∧
    (HEAD_DIM < 64 →
      (List.range HEAD_DIM).map
          (fun k => ((blockHeadOutputs (fun q => q) [[1]] 64 EMBEDDING_SIZE default 0).getD 0 []).getD k 0) =
        ((blockHeadOutputs (fun q => q) [[1]] 64 EMBEDDING_SIZE default 0).getD 0 []).take HEAD_DIM) :=
  recombine_bounds_iff (fun q => q) [[1]] 64 EMBEDDING_SIZE default 0 0
    (by decide) (by decide) (by decide)

/-- Claim C8: the boundary requirement that a sequence of length 1 pass
through every stage with no out-of-bounds access fails on this code:
at seqLength = 1 the head-recombination of block copies
HEAD_DIM = 64 floats out of each head_outputs[h][0], but
scaled_dot_product_attention allocated that row with only seqLength = 1
entries, so the reads at offsets 1..63 are outside the row. -/
theorem seqlen_one_recombine_oob :
    ¬ recombineReadsInBounds
        (blockHeadOutputs (fun q => q) [List.replicate EMBEDDING_SIZE 0] 1 EMBEDDING_SIZE default) 1 := by
  intro hIB
  have h1 := hIB 0 (by decide) 0 (by decide) 1 (by decide)
  rw [blockHeadOutputs_row_length _ _ _ _ _ _ _ (by decide)] at h1
  omega

theorem getD_allocRows (st : Heap) (rows : Mat) (q : ℕ) (hq : q < st.length) :
    ((allocRows st rows).1).getD q none = st.getD q none :=
  List.getD_append st (rows.map Option.some) none q hq

theorem length_allocRows (st : Heap) (rows : Mat) :
    st.length ≤ ((allocRows st rows).1).length := by
  simp [allocRows]

theorem allocRows_ptrs_ge (st : Heap) (rows : Mat) :
    ∀ p ∈ (allocRows st rows).2, st.length ≤ p := by
  intro p hp
  simp only [allocRows, List.mem_map, List.mem_range] at hp
  obtain ⟨k, _, rfl⟩ := hp
  exact Nat.le_add_right _ _

theorem getD_freeRows (ps : List ℕ) : ∀ (st : Heap) (q : ℕ), (∀ p ∈ ps, q ≠ p) →
    (freeRows st ps).getD q none = st.getD q none := by
  induction ps with
  | nil => intro st q _; rfl
  | cons p ps ih =>
    intro st q h
    have h1 : freeRows st (p :: ps) = freeRows (st.set p none) ps := rfl
    rw [h1, ih (st.set p none) q fun r hr => h r (List.mem_cons_of_mem p hr)]
    rw [List.getD_eq_getElem?_getD,
      List.getElem?_set_ne (Ne.symm (h p (List.mem_cons_self p ps))),
      ← List.getD_eq_getElem?_getD]

theorem blockH_preserves_old (sqrtq : ℚ → ℚ) (st : Heap) (xp : List ℕ)
    (seqLength embeddingSize : ℕ) (w : BlockWeights) (q : ℕ) (hq : q < st.length) :
    ((blockH sqrtq st xp seqLength embeddingSize w).1).getD q none = st.getD q none := by
  simp only [blockH]
  generalize readMat st xp = x0
  generalize norm sqrtq x0 seqLength embeddingSize = nx
  generalize projectRows nx seqLength w.q_mlp = mq
  generalize projectRows nx seqLength w.k_mlp = mk2
  generalize projectRows nx seqLength w.v_mlp = mv
  generalize (List.range NUM_HEADS).flatMap
      (fun h => headSlice mq seqLength h ++ headSlice mk2 seqLength h ++ headSlice mv seqLength h) = hrws
  generalize blockHeadOutputs sqrtq x0 seqLength embeddingSize w = ho
  generalize (List.range NUM_HEADS).flatMap (fun h => ho h) = hors
  generalize concatHeads ho seqLength = ma
  generalize matrix_add x0 ma seqLength embeddingSize = mxa
  generalize norm sqrtq mxa seqLength embeddingSize = nxa
  generalize (List.range seqLength).map (fun i => mlpPosition (nxa.getD i []) w) = mm
  generalize matrix_add mxa mm seqLength embeddingSize = mo
  set s1 := allocRows st nx with hs1
  set s2 := allocRows s1.1 mq with hs2
  set s3 := allocRows s2.1 mk2 with hs3
  set s4 := allocRows s3.1 mv with hs4
  set s5 := allocRows s4.1 hrws with hs5
  set s6 := allocRows s5.1 hors with hs6
  set s7 := allocRows s6.1 ma with hs7
  set s8 := allocRows s7.1 mxa with hs8
  set s9 := allocRows s8.1 nxa with hs9
  set s10 := allocRows s9.1 mm with hs10
  set s11 := allocRows s10.1 mo with hs11
  have M1 : st.length ≤ s1.1.length := by rw [hs1]; exact length_allocRows _ _
  have M2 : st.length ≤ s2.1.length := le_trans M1 (by rw [hs2]; exact length_allocRows _ _)
  have M3 : st.length ≤ s3.1.length := le_trans M2 (by rw [hs3]; exact length_allocRows _ _)
  have M4 : st.length ≤ s4.1.length := le_trans M3 (by rw [hs4]; exact length_allocRows _ _)
  have M5 : st.length ≤ s5.1.length := le_trans M4 (by rw [hs5]; exact length_allocRows _ _)
  have M6 : st.length ≤ s6.1.length := le_trans M5 (by rw [hs6]; exact length_allocRows _ _)
  have M7 : st.length ≤ s7.1.length := le_trans M6 (by rw [hs7]; exact length_allocRows _ _)
  have M8 : st.length ≤ s8.1.length := le_trans M7 (by rw [hs8]; exact length_allocRows _ _)
  have M9 : st.length ≤ s9.1.length := le_trans M8 (by rw [hs9]; exact length_allocRows _ _)
  have M10 : st.length ≤ s10.1.length := le_trans M9 (by rw [hs10]; exact length_allocRows _ _)
  have P1 : ∀ p ∈ s1.2, st.length ≤ p := by rw [hs1]; exact allocRows_ptrs_ge _ _
  have P2 : ∀ p ∈ s2.2, st.length ≤ p := by
    rw [hs2]; intro p hp; exact le_trans M1 (allocRows_ptrs_ge _ _ p hp)
  have P3 : ∀ p ∈ s3.2, st.length ≤ p := by
    rw [hs3]; intro p hp; exact le_trans M2 (allocRows_ptrs_ge _ _ p hp)
  have P4 : ∀ p ∈ s4.2, st.length ≤ p := by
    rw [hs4]; intro p hp; exact le_trans M3 (allocRows_ptrs_ge _ _ p hp)
  have P5 : ∀ p ∈ s5.2, st.length ≤ p := by
    rw [hs5]; intro p hp; exact le_trans M4 (allocRows_ptrs_ge _ _ p hp)
  have P6 : ∀ p ∈ s6.2, st.length ≤ p := by
    rw [hs6]; intro p hp; exact le_trans M5 (allocRows_ptrs_ge _ _ p hp)
  have P8 : ∀ p ∈ s8.2, st.length ≤ p := by
    rw [hs8]; intro p hp; exact le_trans M7 (allocRows_ptrs_ge _ _ p hp)
  have P9 : ∀ p ∈ s9.2, st.length ≤ p := by
    rw [hs9]; intro p hp; exact le_trans M8 (allocRows_ptrs_ge _ _ p hp)
  have P10 : ∀ p ∈ s10.2, st.length ≤ p := by
    rw [hs10]; intro p hp; exact le_trans M9 (allocRows_ptrs_ge _ _ p hp)
  have hne : ∀ p ∈ (s1.2 ++ s2.2 ++ s3.2 ++ s4.2 ++ s5.2 ++ s6.2 ++ s8.2 ++ s9.2 ++ s10.2),
      q ≠ p := by
    intro p hp
    simp only [List.mem_append] at hp
    rcases hp with ((((((((hp | hp) | hp) | hp) | hp) | hp) | hp) | hp) | hp)
    · exact Nat.ne_of_lt (lt_of_lt_of_le hq (P1 p hp))
    · exact Nat.ne_of_lt (lt_of_lt_of_le hq (P2 p hp))
    · exact Nat.ne_of_lt (lt_of_lt_of_le hq (P3 p hp))
    · exact Nat.ne_of_lt (lt_of_lt_of_le hq (P4 p hp))
    · exact Nat.ne_of_lt (lt_of_lt_of_le hq (P5 p hp))
    · exact Nat.ne_of_lt (lt_of_lt_of_le hq (P6 p hp))
    · exact Nat.ne_of_lt (lt_of_lt_of_le hq (P8 p hp))
    · exact Nat.ne_of_lt (lt_of_lt_of_le hq (P9 p hp))
    · exact Nat.ne_of_lt (lt_of_lt_of_le hq (P10 p hp))
  rw [getD_freeRows _ _ _ hne]
  rw [hs11, getD_allocRows _ _ _ (lt_of_lt_of_le hq M10)]
  rw [hs10, getD_allocRows _ _ _ (lt_of_lt_of_le hq M9)]
  rw [hs9, getD_allocRows _ _ _ (lt_of_lt_of_le hq M8)]
  rw [hs8, getD_allocRows _ _ _ (lt_of_lt_of_le hq M7)]
  rw [hs7, getD_allocRows _ _ _ (lt_of_lt_of_le hq M6)]
  rw [hs6, getD_allocRows _ _ _ (lt_of_lt_of_le hq M5)]
  rw [hs5, getD_allocRows _ _ _ (lt_of_lt_of_le hq M4)]
  rw [hs4, getD_allocRows _ _ _ (lt_of_lt_of_le hq M3)]
  rw [hs3, getD_allocRows _ _ _ (lt_of_lt_of_le hq M2)]
  rw [hs2, getD_allocRows _ _ _ (lt_of_lt_of_le hq M1)]
  rw [hs1, getD_allocRows _ _ _ hq]

/-- Claim C9: block never mutates its input in place: in the heap
model of the call (blockH), every store targets a row freshly
allocated during the call and every free releases such a fresh row, so
after the call every row the input pointers xp designate reads exactly
as before the call. -/
theorem block_input_preserved (sqrtq : ℚ → ℚ) (st : Heap) (xp : List ℕ)
    (seqLength embeddingSize : ℕ) (w : BlockWeights)
    (hxp : ∀ p ∈ xp, p < st.length) :
    readMat ((blockH sqrtq st xp seqLength embeddingSize w).1) xp = readMat st xp := by
  unfold readMat
  apply List.map_congr_left
  intro p hp
  unfold readRow
  rw [blockH_preserves_old sqrtq st xp seqLength embeddingSize w p (hxp p hp)]

theorem block_input_preserved_witness :
    readMat ((blockH (fun q => q) [some [1]] [0] 1 EMBEDDING_SIZE default).1) [0] =
      readMat [some [1]] [0] :=
  block_input_preserved (fun q => q) [some [1]] [0] 1 EMBEDDING_SIZE default (by decide)

end GPT2
